import Mathlib

/-!
A shallow embedding of `src/src/LogLoader.cpp` (the log mirroring and upload
orchestrator) together with theorems settling the specification claims.

Conventions used throughout:
* file contents are opaque byte blobs, modelled as `String`;
* the local filesystem is a partial map from path to on-disk size
  (`String → Option Nat`) for the download side, and from path to contents
  (`String → Option String`) for the upload side;
* the persisted upload ledger (one path per line) is a `List String` of lines;
* HTTP responses are `Option Nat` (the status code, `none` = transport error);
* the vehicle's armed signal and the shutdown flag are read at discrete
  instants, modelled where needed as streams `Nat → Bool` or as explicit
  per-observation booleans.
-/

namespace LogLoader

/-- Catalog entry (`mavsdk::LogFiles::Entry`): a vehicle-assigned `id`, the
ISO-8601 `date` string that names the local file, and the authoritative
`size_bytes`. -/
structure Entry where
  id : Nat
  date : String
  size_bytes : Nat
deriving DecidableEq

/-- The shared record `_current_download : std::pair<std::string, bool>`
(LogLoader.cpp:177-182, 235-238, 326-332): `active_path` is `.first` (the path
currently being downloaded), `completed` is `.second`. -/
structure DownloadState where
  active_path : String
  completed : Bool
deriving DecidableEq

/-- LogLoader.cpp:144,157: destination path of a catalog entry,
`_settings.logging_directory + entry.date + ".ulg"`. -/
def logPath (dir : String) (e : Entry) : String :=
  dir ++ e.date ++ ".ulg"

/-- Lexicographic comparison of character lists, the semantics of
`std::string::operator<` (and `operator>` with the arguments swapped) used by
the source at LogLoader.cpp:166 and LogLoader.cpp:416. -/
def charListLt : List Char → List Char → Bool
  | [], [] => false
  | [], _ :: _ => true
  | _ :: _, [] => false
  | a :: as, b :: bs =>
    if a.toNat < b.toNat then true
    else if b.toNat < a.toNat then false
    else charListLt as bs

/-- `a < b` on strings, byte/character-wise lexicographic as in C++. -/
def string_lt (a b : String) : Bool :=
  charListLt a.data b.data

/-- LogLoader.cpp:310-322 `LogLoader::log_has_been_uploaded`: scan the ledger
file line by line and return true iff some line equals `file_path`. -/
def log_has_been_uploaded (ledger : List String) (file_path : String) : Bool :=
  match ledger with
  | [] => false
  | line :: rest => if line = file_path then true else log_has_been_uploaded rest file_path

/-- LogLoader.cpp:324-333 `LogLoader::log_download_complete`: if the path is
the current download's path, report its completion flag; any other path is
reported complete. -/
def log_download_complete (st : DownloadState) (log_path : String) : Bool :=
  if st.active_path = log_path then st.completed else true

/-- LogLoader.cpp:293-308 `LogLoader::get_logs_to_upload`: keep every directory
entry that is neither recorded in the ledger nor an incomplete current
download. No filename filter is applied. -/
def get_logs_to_upload (ledger : List String) (st : DownloadState)
    (files : List String) : List String :=
  files.filter (fun log_path =>
    !log_has_been_uploaded ledger log_path && log_download_complete st log_path)

/-- LogLoader.cpp:335-339 `LogLoader::mark_log_as_uploaded`: append the path as
a new line at the end of the ledger file. -/
def mark_log_as_uploaded (ledger : List String) (file_path : String) : List String :=
  ledger ++ [file_path]

/-- LogLoader.cpp:406 `log_pattern`: the anchored regex
`^(\d{4}-\d{2}-\d{2}T\d{2}:\d{2}:\d{2}Z)\.ulg$`, modelled as an exact
character-shape match over the filename. -/
def log_pattern_shape : List (Char → Bool) :=
  [Char.isDigit, Char.isDigit, Char.isDigit, Char.isDigit, fun c => c == '-',
   Char.isDigit, Char.isDigit, fun c => c == '-', Char.isDigit, Char.isDigit,
   fun c => c == 'T', Char.isDigit, Char.isDigit, fun c => c == ':',
   Char.isDigit, Char.isDigit, fun c => c == ':', Char.isDigit, Char.isDigit,
   fun c => c == 'Z', fun c => c == '.', fun c => c == 'u', fun c => c == 'l',
   fun c => c == 'g']

/-- Match a character list against a list of per-position predicates; the
lengths must agree exactly (the source regex is anchored on both sides). -/
def match_shape : List Char → List (Char → Bool) → Bool
  | [], [] => true
  | c :: cs, p :: ps => p c && match_shape cs ps
  | _, _ => false

/-- Whether a filename matches the `<date>.ulg` pattern of LogLoader.cpp:406. -/
def matches_log_pattern (filename : String) : Bool :=
  match_shape filename.data log_pattern_shape

/-- LogLoader.cpp:414 `matches[1]`: the date capture group, i.e. the first 20
characters of a matching filename. -/
def extract_log_date (filename : String) : String :=
  String.mk (filename.data.take 20)

/-- One iteration of the loop in LogLoader.cpp:409-420: update the running
lexicographic maximum with the date captured from a matching filename. -/
def most_recent_step (latest_log : String) (filename : String) : String :=
  if matches_log_pattern filename then
    let log := extract_log_date filename
    if string_lt latest_log log then log else latest_log
  else latest_log

/-- LogLoader.cpp:403-423 `LogLoader::find_most_recent_log`: fold over the
directory's filenames, starting from the empty string. -/
def find_most_recent_log (filenames : List String) : String :=
  filenames.foldl most_recent_step ""

theorem log_has_been_uploaded_iff (ledger : List String) (p : String) :
    log_has_been_uploaded ledger p = true ↔ p ∈ ledger := by
  induction ledger with
  | nil => simp [log_has_been_uploaded]
  | cons line rest ih =>
    by_cases h : line = p
    · simp [log_has_been_uploaded, h]
    · simp only [log_has_been_uploaded, if_neg h, ih, List.mem_cons]
      constructor
      · exact fun hm => Or.inr hm
      · rintro (hm | hm)
        · exact absurd hm.symm h
        · exact hm

theorem log_download_complete_iff (st : DownloadState) (p : String) :
    log_download_complete st p = true ↔ ¬(p = st.active_path ∧ st.completed = false) := by
  unfold log_download_complete
  by_cases h : st.active_path = p
  · cases hc : st.completed <;> simp [h, hc, eq_comm]
  · simp only [if_neg h, true_iff]
    rintro ⟨hp, _⟩
    exact h hp.symm

/-- Shared characterization of membership in `get_logs_to_upload`. -/
theorem mem_get_logs_to_upload (ledger : List String) (st : DownloadState)
    (files : List String) (p : String) :
    p ∈ get_logs_to_upload ledger st files ↔
      p ∈ files ∧ p ∉ ledger ∧ ¬(p = st.active_path ∧ st.completed = false) := by
  unfold get_logs_to_upload
  rw [List.mem_filter, Bool.and_eq_true, Bool.not_eq_true']
  constructor
  · rintro ⟨hf, hled, hcomp⟩
    refine ⟨hf, ?_, (log_download_complete_iff st p).mp hcomp⟩
    intro hmem
    rw [(log_has_been_uploaded_iff ledger p).mpr hmem] at hled
    exact Bool.noConfusion hled
  · rintro ⟨hf, hled, hact⟩
    refine ⟨hf, ?_, (log_download_complete_iff st p).mpr hact⟩
    cases hb : log_has_been_uploaded ledger p
    · rfl
    · exact absurd ((log_has_been_uploaded_iff ledger p).mp hb) hled

/-- C1: a file found by the upload scan is upload-eligible iff its path is not
recorded in the ledger and it is not the current `active_path` with
`completed = false`; in particular the active path with `completed = false` is
never selected, and with `completed = true` it is selected whenever it is
listed and not in the ledger. -/
theorem upload_eligibility_iff (ledger : List String) (st : DownloadState)
    (files : List String) (p : String) :
    p ∈ get_logs_to_upload ledger st files ↔
      p ∈ files ∧ p ∉ ledger ∧ ¬(p = st.active_path ∧ st.completed = false) :=
  mem_get_logs_to_upload ledger st files p

/-- C9: after `mark_log_as_uploaded` appends a path to the ledger, the
membership check returns true for that path, and re-running the upload scan
over any directory listing never selects the path again. -/
theorem ledger_append_excludes_path (ledger : List String) (st : DownloadState)
    (files : List String) (p : String) :
    log_has_been_uploaded (mark_log_as_uploaded ledger p) p = true ∧
      p ∉ get_logs_to_upload (mark_log_as_uploaded ledger p) st files := by
  have h1 : log_has_been_uploaded (mark_log_as_uploaded ledger p) p = true := by
    rw [log_has_been_uploaded_iff]
    simp [mark_log_as_uploaded]
  refine ⟨h1, ?_⟩
  intro hmem
  have h2 := (mem_get_logs_to_upload (mark_log_as_uploaded ledger p) st files p).mp hmem
  exact h2.2.1 ((log_has_been_uploaded_iff (mark_log_as_uploaded ledger p) p).mp h1)

/-- C10: the upload scan applies no filename-pattern filter: a directory entry
whose name does not match the `<date>.ulg` pattern is still returned as
upload-eligible whenever it is not in the ledger and is not the active
incomplete download. (The pattern hypothesis is deliberately unused: the scan
never consults the pattern.) -/
theorem upload_scan_ignores_pattern (ledger : List String) (st : DownloadState)
    (files : List String) (p : String)
    (_hpat : matches_log_pattern p = false)
    (hmem : p ∈ files) (hled : p ∉ ledger)
    (hact : ¬(p = st.active_path ∧ st.completed = false)) :
    p ∈ get_logs_to_upload ledger st files :=
  (mem_get_logs_to_upload ledger st files p).mpr ⟨hmem, hled, hact⟩

/-- Witness for C10 at a concrete non-log filename. -/
theorem upload_scan_ignores_pattern_witness :
    matches_log_pattern "/logs/notes.txt" = false ∧
      "/logs/notes.txt" ∈ get_logs_to_upload [] ⟨"", false⟩ ["/logs/notes.txt"] :=
  ⟨by decide,
   upload_scan_ignores_pattern [] ⟨"", false⟩ ["/logs/notes.txt"] "/logs/notes.txt"
     (by decide) (by decide) (by decide) (by decide)⟩

/-- The download action the scheduler takes for one catalog entry. -/
inductive DlAction where
  /-- LogLoader.cpp:159-164: `fs::remove` followed by `download_log`. -/
  | redownload (path : String)
  /-- LogLoader.cpp:166-167: plain `download_log`. -/
  | download (path : String)
  /-- Neither branch of LogLoader.cpp:159-168 taken: no download attempted. -/
  | skip (path : String)
deriving DecidableEq

/-- Point update of the modelled filesystem (the effect at `p` of removing and
re-creating the file there). -/
def fsUpdate (fs : String → Option Nat) (p : String) (v : Option Nat) :
    String → Option Nat :=
  fun x => if x = p then v else fs x

/-- LogLoader.cpp:148-170 `LogLoader::download_all_logs`: walk the catalog in
order; at each entry first read `_telemetry->armed() || _should_exit` (the
`abort` stream, indexed by how many entries have been visited) and return early
if it is set; otherwise, if the local file exists with size strictly below
`size_bytes`, remove it and re-download, else if it does not exist and the
entry's date is lexicographically greater than `most_recent_log`, download it;
otherwise do nothing. `dl e` is the on-disk size at the entry's path after its
(blocking) download returns. Returns the actions taken, in order, and the
final filesystem. -/
def download_all_logs (dir most_recent_log : String) (dl : Entry → Option Nat)
    (abort : Nat → Bool) :
    Nat → (String → Option Nat) → List Entry → List DlAction × (String → Option Nat)
  | _, fs, [] => ([], fs)
  | k, fs, e :: rest =>
    if abort k then ([], fs)
    else
      let p := logPath dir e
      match fs p with
      | some sz =>
        if sz < e.size_bytes then
          let r := download_all_logs dir most_recent_log dl abort (k + 1)
            (fsUpdate fs p (dl e)) rest
          (DlAction.redownload p :: r.1, r.2)
        else
          let r := download_all_logs dir most_recent_log dl abort (k + 1) fs rest
          (DlAction.skip p :: r.1, r.2)
      | none =>
        if string_lt most_recent_log e.date then
          let r := download_all_logs dir most_recent_log dl abort (k + 1)
            (fsUpdate fs p (dl e)) rest
          (DlAction.download p :: r.1, r.2)
        else
          let r := download_all_logs dir most_recent_log dl abort (k + 1) fs rest
          (DlAction.skip p :: r.1, r.2)

/-- The per-entry download decision as the claim words it (C2), evaluated
against a fixed filesystem snapshot. -/
def claimed_action (dir most_recent_log : String) (fs : String → Option Nat)
    (e : Entry) : DlAction :=
  match fs (logPath dir e) with
  | some sz =>
    if sz < e.size_bytes then DlAction.redownload (logPath dir e)
    else DlAction.skip (logPath dir e)
  | none =>
    if string_lt most_recent_log e.date then DlAction.download (logPath dir e)
    else DlAction.skip (logPath dir e)

/-- LogLoader.cpp:104-113 together with LogLoader.cpp:140-146: the download
decision part of one cycle of `run`. If no directory filename matches the log
pattern, `find_most_recent_log` is empty and `download_first_log` downloads
exactly the last catalog entry; otherwise `download_all_logs` runs. The
`entries.getLast? = none` branch models the source's `_log_entries.back()` on
an empty vector, which is undefined behaviour and excluded by the theorems'
hypotheses. -/
def run_cycle_downloads (dir : String) (filenames : List String)
    (fs : String → Option Nat) (dl : Entry → Option Nat)
    (entries : List Entry) : List DlAction :=
  if (find_most_recent_log filenames).isEmpty then
    match entries.getLast? with
    | some e => [DlAction.download (logPath dir e)]
    | none => []
  else
    (download_all_logs dir (find_most_recent_log filenames) dl (fun _ => false) 0 fs entries).1

theorem claimed_action_update_ne (dir most_recent_log : String)
    (fs : String → Option Nat) (p : String) (v : Option Nat) (e : Entry)
    (h : logPath dir e ≠ p) :
    claimed_action dir most_recent_log (fsUpdate fs p v) e =
      claimed_action dir most_recent_log fs e := by
  unfold claimed_action fsUpdate
  rw [if_neg h]

/-- C2 core: with the armed/shutdown signal low for the whole pass and
pairwise-distinct destination paths, the actions of `download_all_logs` are
exactly the per-entry decisions of the claim, taken against the initial
filesystem snapshot. -/
theorem download_all_logs_characterization (dir most_recent_log : String)
    (dl : Entry → Option Nat) (fs : String → Option Nat) (entries : List Entry)
    (hnd : (entries.map (logPath dir)).Nodup) :
    (download_all_logs dir most_recent_log dl (fun _ => false) 0 fs entries).1 =
      entries.map (claimed_action dir most_recent_log fs) := by
  suffices h : ∀ (k : Nat) (fs : String → Option Nat),
      (download_all_logs dir most_recent_log dl (fun _ => false) k fs entries).1 =
        entries.map (claimed_action dir most_recent_log fs) from h 0 fs
  clear fs
  induction entries with
  | nil => intro k fs; rfl
  | cons e rest ih =>
    intro k fs
    rw [List.map_cons, List.nodup_cons] at hnd
    have hne : ∀ e' ∈ rest, logPath dir e' ≠ logPath dir e := by
      intro e' he' hc
      exact hnd.1 (hc ▸ List.mem_map_of_mem (logPath dir) he')
    have hmap : ∀ v : Option Nat,
        rest.map (claimed_action dir most_recent_log
          (fsUpdate fs (logPath dir e) v)) =
        rest.map (claimed_action dir most_recent_log fs) := by
      intro v
      exact List.map_congr_left (fun e' he' =>
        claimed_action_update_ne dir most_recent_log fs (logPath dir e) v e'
          (hne e' he'))
    unfold download_all_logs
    simp only [Bool.false_eq_true, if_false]
    cases hfs : fs (logPath dir e) with
    | some sz =>
      by_cases hsz : sz < e.size_bytes
      · simp only [hfs, if_pos hsz, List.map_cons]
        rw [ih hnd.2 (k + 1) (fsUpdate fs (logPath dir e) (dl e)), hmap]
        congr 1
        simp [claimed_action, hfs, hsz]
      · simp only [hfs, if_neg hsz, List.map_cons]
        rw [ih hnd.2 (k + 1) fs]
        congr 1
        simp [claimed_action, hfs, hsz]
    | none =>
      by_cases hdt : string_lt most_recent_log e.date = true
      · simp only [hfs, if_pos hdt, List.map_cons]
        rw [ih hnd.2 (k + 1) (fsUpdate fs (logPath dir e) (dl e)), hmap]
        congr 1
        simp [claimed_action, hfs, hdt]
      · simp only [hfs, if_neg hdt, List.map_cons]
        rw [ih hnd.2 (k + 1) fs]
        congr 1
        simp [claimed_action, hfs, hdt]

/-- Concrete filesystem for the C2 witness: one stale local log of size 500. -/
def fsC2 : String → Option Nat :=
  fun p => if p = "/logs/2024-04-30T10:00:00Z.ulg" then some 500 else none

/-- Concrete catalog for the C2 witness: one stale entry (re-download), one new
entry (download), one old absent entry (skip). -/
def entriesC2 : List Entry :=
  [⟨3, "2024-04-30T10:00:00Z", 1000⟩, ⟨4, "2024-05-02T00:00:00Z", 2000⟩,
   ⟨5, "2024-04-01T00:00:00Z", 300⟩]

/-- Witness for C2: the characterization evaluated on a concrete pass covering
all three branches. -/
theorem download_all_logs_characterization_witness :
    (entriesC2.map (logPath "/logs/")).Nodup ∧
      (download_all_logs "/logs/" "2024-05-01T00:00:00Z" (fun e => some e.size_bytes)
          (fun _ => false) 0 fsC2 entriesC2).1 =
        entriesC2.map (claimed_action "/logs/" "2024-05-01T00:00:00Z" fsC2) ∧
      entriesC2.map (claimed_action "/logs/" "2024-05-01T00:00:00Z" fsC2) =
        [DlAction.redownload "/logs/2024-04-30T10:00:00Z.ulg",
         DlAction.download "/logs/2024-05-02T00:00:00Z.ulg",
         DlAction.skip "/logs/2024-04-01T00:00:00Z.ulg"] :=
  ⟨by decide,
   download_all_logs_characterization "/logs/" "2024-05-01T00:00:00Z"
     (fun e => some e.size_bytes) fsC2 entriesC2 (by decide),
   by rfl⟩

theorem foldl_most_recent_no_match (filenames : List String) (acc : String)
    (h : ∀ f ∈ filenames, matches_log_pattern f = false) :
    filenames.foldl most_recent_step acc = acc := by
  induction filenames generalizing acc with
  | nil => rfl
  | cons f rest ih =>
    have hf : matches_log_pattern f = false := h f (List.mem_cons_self f rest)
    rw [List.foldl_cons, show most_recent_step acc f = acc by
      simp [most_recent_step, hf]]
    exact ih acc (fun g hg => h g (List.mem_cons_of_mem f hg))

theorem find_most_recent_log_eq_empty (filenames : List String)
    (h : ∀ f ∈ filenames, matches_log_pattern f = false) :
    find_most_recent_log filenames = "" :=
  foldl_most_recent_no_match filenames "" h

/-- C8: when no directory filename matches the `<date>.ulg` pattern, the cycle
performs exactly one download — the last catalog entry, saved at
`dir ++ date ++ ".ulg"` — and no other entry is downloaded. -/
theorem no_local_logs_downloads_latest (dir : String) (filenames : List String)
    (fs : String → Option Nat) (dl : Entry → Option Nat)
    (entries : List Entry) (e : Entry)
    (hno : ∀ f ∈ filenames, matches_log_pattern f = false)
    (hlast : entries.getLast? = some e) :
    run_cycle_downloads dir filenames fs dl entries =
      [DlAction.download (logPath dir e)] := by
  unfold run_cycle_downloads
  rw [find_most_recent_log_eq_empty filenames hno, hlast]
  rfl

/-- Concrete catalog for the C8 witness. -/
def entriesC8 : List Entry :=
  [⟨1, "2024-05-01T00:00:00Z", 1000⟩, ⟨2, "2024-05-02T00:00:00Z", 2000⟩]

/-- Witness for C8: a directory holding only a non-log file and a two-entry
catalog; only the most recent entry is downloaded. -/
theorem no_local_logs_downloads_latest_witness :
    matches_log_pattern "notes.txt" = false ∧
      entriesC8.getLast? = some ⟨2, "2024-05-02T00:00:00Z", 2000⟩ ∧
      run_cycle_downloads "/logs/" ["notes.txt"] (fun _ => none) (fun _ => none)
          entriesC8 =
        [DlAction.download "/logs/2024-05-02T00:00:00Z.ulg"] :=
  ⟨by decide, by decide,
   no_local_logs_downloads_latest "/logs/" ["notes.txt"] (fun _ => none)
     (fun _ => none) entriesC8 ⟨2, "2024-05-02T00:00:00Z", 2000⟩
     (by decide) (by decide)⟩

/-- Outcome of one upload attempt: whether a POST was issued, the bytes placed
in the multipart file field, the filename given for that field, and the
boolean returned to the caller. -/
structure UploadAttempt where
  requested : Bool
  blob : String
  filename : String
  success : Bool
deriving DecidableEq

/-- LogLoader.cpp:355-401 `LogLoader::send_log_to_server`: open the file (on
failure return false with no request), read its full contents into the
`filearg` multipart field, POST to `/upload`, and return true iff the response
exists with status 302 (redirect to the created resource). The upload-side
filesystem `fsc` maps a path to its contents; `resp` is the archive's response
status, `none` for a transport error. -/
def send_log_to_server (fsc : String → Option String) (resp : Option Nat)
    (file_path : String) : UploadAttempt :=
  match fsc file_path with
  | none => { requested := false, blob := "", filename := "", success := false }
  | some content =>
    { requested := true, blob := content, filename := file_path,
      success := match resp with
                 | some status => status == 302
                 | none => false }

/-- LogLoader.cpp:437: the literal path hardcoded into
`send_log_to_server_it`. -/
def cloud_server_log_path : String :=
  "/home/thanaphat/logloader/logs/2024-05-30T04:56:06Z.ulg"

/-- LogLoader.cpp:425-431 `LogLoader::read_file_ulog`: slurp a file; a stream
that fails to open yields the empty string. -/
def read_file_ulog (fsc : String → Option String) (path : String) : String :=
  match fsc path with
  | some content => content
  | none => ""

/-- LogLoader.cpp:433-471 `LogLoader::send_log_to_server_it` — the function the
upload loop actually calls at LogLoader.cpp:277. It ignores `file_path`: it
reads the hardcoded `cloud_server_log_path`, POSTs it under the hardcoded
filename to the alternate cloud endpoint, and returns true whenever any
response arrives, regardless of status. -/
def send_log_to_server_it (fsc : String → Option String) (resp : Option Nat)
    (_file_path : String) : UploadAttempt :=
  { requested := true,
    blob := read_file_ulog fsc cloud_server_log_path,
    filename := "2024-05-30T04:56:06Z.ulg",
    success := resp.isSome }

/-- Concrete upload-side filesystem for the C3 evaluation: the file handed to
the upload operation and the hardcoded debug file hold different bytes. -/
def fsC3 : String → Option String :=
  fun p =>
    if p = "/logs/2024-05-02T00:00:00Z.ulg" then some "GIVENFILEBYTES"
    else if p = cloud_server_log_path then some "DEBUGFILEBYTES"
    else none

/-- C3 (code bug evaluation): the operation the upload loop calls,
`send_log_to_server_it`, submits the hardcoded debug file's bytes instead of
the given file's and reports success on a status-500 response, while the
superseded `send_log_to_server` submits exactly the given file's bytes and
rejects the same non-redirect response. -/
theorem upload_operation_divergence :
    send_log_to_server_it fsC3 (some 500) "/logs/2024-05-02T00:00:00Z.ulg" =
      { requested := true, blob := "DEBUGFILEBYTES",
        filename := "2024-05-30T04:56:06Z.ulg", success := true } ∧
    send_log_to_server fsC3 (some 500) "/logs/2024-05-02T00:00:00Z.ulg" =
      { requested := true, blob := "GIVENFILEBYTES",
        filename := "/logs/2024-05-02T00:00:00Z.ulg", success := false } ∧
    send_log_to_server fsC3 (some 302) "/logs/2024-05-02T00:00:00Z.ulg" =
      { requested := true, blob := "GIVENFILEBYTES",
        filename := "/logs/2024-05-02T00:00:00Z.ulg", success := true } := by
  refine ⟨by decide, by decide, by decide⟩

/-- The subset of `mavsdk::LogFiles::Result` values the worker distinguishes:
`Next` is the non-terminal progress status, `Success` the successful terminal
status, `Timeout` the value the worker itself resolves on shutdown, and
`TransferError` stands for any other terminal error status. -/
inductive MavResult where
  | Success
  | Next
  | Timeout
  | TransferError
deriving DecidableEq

/-- State shared by the progress callback across its invocations
(LogLoader.cpp:186-227): the `_exiting` guard flag and the list of values the
promise has been given so far (each entry is one `prom.set_value` call; a
well-behaved worker produces at most one). -/
structure CbState where
  exiting : Bool
  resolved : List MavResult
deriving DecidableEq

/-- One invocation of the progress callback (LogLoader.cpp:189-227) with the
current value of `_should_exit` and the transfer status it delivers:
if `_exiting` is set, return immediately; else if `_should_exit` is set, set
`_exiting` and resolve the promise with `Timeout` and return; else if the
status is terminal (not `Next`), resolve the promise with it (without setting
`_exiting`). -/
def callback_step (s : CbState) (should_exit : Bool) (result : MavResult) :
    CbState :=
  if s.exiting then s
  else if should_exit then
    { exiting := true, resolved := s.resolved ++ [MavResult.Timeout] }
  else if result ≠ MavResult.Next then
    { s with resolved := s.resolved ++ [result] }
  else s

/-- Run the callback over a sequence of invocations, each carrying the
`_should_exit` value observed at that invocation and the delivered status,
starting from an arbitrary state. -/
def callback_run_from (s : CbState) (invs : List (Bool × MavResult)) : CbState :=
  invs.foldl (fun s i => callback_step s i.1 i.2) s

/-- Run the callback from its initial state (`_exiting = false`, promise
unresolved). -/
def callback_run (invs : List (Bool × MavResult)) : CbState :=
  callback_run_from ⟨false, []⟩ invs

/-- LogLoader.cpp:229-243, the tail of `LogLoader::download_log`: once the
future yields `result`, only `Success` counts as success (updating
`_current_download.second` to true); every other result — including the
`Timeout` resolved on shutdown — leaves the state unchanged and returns false,
printing "Download failed". -/
def download_log_finish (st : DownloadState) (result : MavResult) :
    DownloadState × Bool :=
  if result = MavResult.Success then ({ st with completed := true }, true)
  else (st, false)

/-- LogLoader.cpp:177-182, the head of `LogLoader::download_log`: publish the
destination as the current download with `completed = false`. -/
def download_log_start (download_path : String) : DownloadState :=
  { active_path := download_path, completed := false }

/-- C4 counterexample: a terminal transfer status (`TransferError`) resolves
the promise but does not set the `_exiting` guard, so a later invocation that
observes `_should_exit = true` resolves the promise a second time — the
sequence below produces two `set_value` calls, refuting the claim for the
"terminal transfer status" case of its terminal conditions. -/
theorem double_resolution_after_terminal :
    (callback_run [(false, MavResult.TransferError), (true, MavResult.Next)]).resolved =
      [MavResult.TransferError, MavResult.Timeout] := by
  decide

/-- C4 (amended): once shutdown has been detected mid-transfer — the
`_exiting` flag is set at the shutdown resolution point — every subsequent
callback invocation is a no-op, leaving the state (and so the number of
resolutions) unchanged; only this shutdown case is guarded. -/
theorem no_op_after_exiting (s : CbState) (invs : List (Bool × MavResult))
    (h : s.exiting = true) :
    callback_run_from s invs = s := by
  induction invs with
  | nil => rfl
  | cons i rest ih =>
    have hstep : callback_step s i.1 i.2 = s := by
      unfold callback_step
      rw [h]
      rfl
    unfold callback_run_from at ih ⊢
    rw [List.foldl_cons, hstep]
    exact ih

/-- Witness for the amended C4: after the shutdown resolution, two further
invocations (a late progress report under shutdown and a late terminal status)
leave the state untouched. -/
theorem no_op_after_exiting_witness :
    (⟨true, [MavResult.Timeout]⟩ : CbState).exiting = true ∧
      callback_run_from ⟨true, [MavResult.Timeout]⟩
        [(true, MavResult.Next), (false, MavResult.Success)] =
        ⟨true, [MavResult.Timeout]⟩ :=
  ⟨rfl,
   no_op_after_exiting ⟨true, [MavResult.Timeout]⟩
     [(true, MavResult.Next), (false, MavResult.Success)] rfl⟩

/-- C5 counterexample: shutdown observed mid-transfer resolves the promise to
`Timeout` (there is no distinct `Cancelled` value) within that very
invocation, and `download_log` then reports this outcome as a failure: it
returns false (printing "Download failed"), exactly as for any non-`Success`
result — refuting "this cancellation outcome is not reported as a failure". -/
theorem cancellation_reported_as_failure :
    (callback_run [(true, MavResult.Next)]).resolved = [MavResult.Timeout] ∧
      download_log_finish ⟨"/logs/2024-05-02T00:00:00Z.ulg", false⟩
          MavResult.Timeout =
        (⟨"/logs/2024-05-02T00:00:00Z.ulg", false⟩, false) := by
  refine ⟨by decide, by decide⟩

/-- C5 (amended): if shutdown is requested mid-transfer, the worker resolves
its result immediately to `Timeout` (the cancellation stand-in) within the
first callback invocation that observes the flag — even a non-terminal
progress invocation — without waiting for the transfer's own terminal status;
however `download_log` then reports this outcome as a failure (returns false),
as it treats every non-`Success` result alike. -/
theorem shutdown_resolves_immediately (s : CbState) (r : MavResult)
    (st : DownloadState) (h : s.exiting = false) :
    (callback_step s true r).resolved = s.resolved ++ [MavResult.Timeout] ∧
      (callback_step s true r).exiting = true ∧
      download_log_finish st MavResult.Timeout = (st, false) := by
  unfold callback_step
  rw [h]
  exact ⟨rfl, rfl, rfl⟩

/-- Witness for the amended C5 at a concrete pre-state and non-terminal
progress status. -/
theorem shutdown_resolves_immediately_witness :
    (⟨false, []⟩ : CbState).exiting = false ∧
      (callback_step ⟨false, []⟩ true MavResult.Next).resolved =
        [MavResult.Timeout] ∧
      download_log_finish ⟨"/logs/a.ulg", false⟩ MavResult.Timeout =
        (⟨"/logs/a.ulg", false⟩, false) := by
  have h := shutdown_resolves_immediately ⟨false, []⟩ MavResult.Next
    ⟨"/logs/a.ulg", false⟩ rfl
  exact ⟨rfl, h.1, h.2.2⟩

/-- How `LogLoader::run` (LogLoader.cpp:68-124) terminates. -/
inductive RunExit where
  /-- The outer `while (!_should_exit)` condition at LogLoader.cpp:72 read
  true for `_should_exit`, the loop fell through, and
  `upload_thread.join()` at LogLoader.cpp:122 ran before returning. -/
  | joinedUpload
  /-- The check at LogLoader.cpp:83 (`if (_should_exit) return;`, placed right
  after the armed wait) read true and `run` returned immediately, skipping the
  join at LogLoader.cpp:122 and destroying the still-joinable upload thread. -/
  | returnedWithoutJoin
deriving DecidableEq

/-- Control-flow model of the loop of `LogLoader::run` (LogLoader.cpp:72-120).
Element `i` of the schedule carries the two `_should_exit` reads that decide
iteration `i`'s exit: `.1` is the read by the outer loop condition at
LogLoader.cpp:72, `.2` the read at LogLoader.cpp:83 after the armed wait (the
wait at LogLoader.cpp:77-81 itself never leaves the iteration; the catalog
fetch, reconciliation and the interruptible sleep at LogLoader.cpp:92-119
never return from `run` either, so they are summarized between reads).
`none` means the loop is still running after the scheduled reads. -/
def run_model : List (Bool × Bool) → Option RunExit
  | [] => none
  | (se_loop_top, se_after_wait) :: rest =>
    if se_loop_top then some RunExit.joinedUpload
    else if se_after_wait then some RunExit.returnedWithoutJoin
    else run_model rest

/-- C6 (code bug evaluation): a schedule in which shutdown is requested while
the download loop sits in the armed wait — the loop top read false, the
post-wait check at LogLoader.cpp:83 reads true — makes `run` return without
joining the upload thread, while a shutdown observed at the loop top joins it;
the claim that `run` always waits for the upload thread fails on the first
schedule. -/
theorem run_returns_without_join :
    run_model [(false, true)] = some RunExit.returnedWithoutJoin ∧
      run_model [(false, false), (true, false)] = some RunExit.joinedUpload := by
  refine ⟨rfl, rfl⟩

/-- An observable step of the download or upload loop, stamped with the
discrete instant at which it happens; the armed signal is a function of the
instant. -/
inductive Ev where
  /-- A read of `_telemetry->armed()` returning the given value. -/
  | check (armed : Bool)
  /-- The catalog fetch `request_log_entries()` (LogLoader.cpp:92). -/
  | fetch
  /-- Entry into `download_log` for the given destination path. -/
  | download (path : String)
  /-- The reachability probe `server_reachable()` (LogLoader.cpp:276). -/
  | probe
  /-- Entry into the upload call for the given path (LogLoader.cpp:277). -/
  | upload (path : String)
deriving DecidableEq

/-- The armed wait of LogLoader.cpp:77-81: one `armed()` read per instant
while the signal is high; the first low read ends the wait. Returns the timed
check events and the first instant after the wait, or `none` when the fuel
runs out before the signal drops. -/
def wait_events (armed : Nat → Bool) : Nat → Nat → Option (List (Nat × Ev) × Nat)
  | _, 0 => none
  | t, fuel + 1 =>
    if armed t then
      match wait_events armed (t + 1) fuel with
      | some (es, tEnd) => some ((t, Ev.check true) :: es, tEnd)
      | none => none
    else some ([(t, Ev.check false)], t + 1)

/-- One cycle of `run` on the no-local-logs path (LogLoader.cpp:72-108 with
`find_most_recent_log` empty): the armed wait, then the catalog fetch, then —
with no further `armed()` read — `download_first_log` enters `download_log`
for the last catalog entry one instant later. -/
def first_log_cycle_events (armed : Nat → Bool) (t0 fuel : Nat) (dir : String)
    (e : Entry) : Option (List (Nat × Ev)) :=
  match wait_events armed t0 fuel with
  | some (es, tEnd) =>
    some (es ++ [(tEnd, Ev.fetch), (tEnd + 1, Ev.download (logPath dir e))])
  | none => none

theorem wait_events_only_checks (armed : Nat → Bool) :
    ∀ (fuel t : Nat) (es : List (Nat × Ev)) (tEnd : Nat),
      wait_events armed t fuel = some (es, tEnd) →
      ∀ pr ∈ es, ∃ b, pr.2 = Ev.check b := by
  intro fuel
  induction fuel with
  | zero =>
    intro t es tEnd h
    exact absurd h (by simp [wait_events])
  | succ fuel ih =>
    intro t es tEnd h pr hpr
    unfold wait_events at h
    by_cases ha : armed t = true
    · rw [if_pos ha] at h
      cases hw : wait_events armed (t + 1) fuel with
      | none => rw [hw] at h; exact absurd h (by simp)
      | some q =>
        obtain ⟨es', tEnd'⟩ := q
        rw [hw] at h
        simp only [Option.some.injEq, Prod.mk.injEq] at h
        obtain ⟨h1, h2⟩ := h
        rw [← h1] at hpr
        rcases List.mem_cons.mp hpr with hpr | hpr
        · exact ⟨true, by rw [hpr]⟩
        · exact ih (t + 1) es' tEnd' hw pr hpr
    · rw [if_neg ha] at h
      simp only [Option.some.injEq, Prod.mk.injEq] at h
      obtain ⟨h1, h2⟩ := h
      rw [← h1] at hpr
      rcases List.mem_cons.mp hpr with hpr | hpr
      · exact ⟨false, by rw [hpr]⟩
      · exact absurd hpr (List.not_mem_nil pr)

theorem wait_events_final_check (armed : Nat → Bool) :
    ∀ (fuel t : Nat) (es : List (Nat × Ev)) (tEnd : Nat),
      wait_events armed t fuel = some (es, tEnd) →
      ∃ n, tEnd = n + 1 ∧ armed n = false ∧ (n, Ev.check false) ∈ es := by
  intro fuel
  induction fuel with
  | zero =>
    intro t es tEnd h
    exact absurd h (by simp [wait_events])
  | succ fuel ih =>
    intro t es tEnd h
    unfold wait_events at h
    by_cases ha : armed t = true
    · rw [if_pos ha] at h
      cases hw : wait_events armed (t + 1) fuel with
      | none => rw [hw] at h; exact absurd h (by simp)
      | some q =>
        obtain ⟨es', tEnd'⟩ := q
        rw [hw] at h
        simp only [Option.some.injEq, Prod.mk.injEq] at h
        obtain ⟨h1, h2⟩ := h
        obtain ⟨n, hn1, hn2, hn3⟩ := ih (t + 1) es' tEnd' hw
        refine ⟨n, ?_, hn2, ?_⟩
        · rw [← h2]; exact hn1
        · rw [← h1]; exact List.mem_cons_of_mem _ hn3
    · rw [if_neg ha] at h
      simp only [Option.some.injEq, Prod.mk.injEq] at h
      obtain ⟨h1, h2⟩ := h
      refine ⟨t, h2.symm, ?_, ?_⟩
      · exact Bool.not_eq_true (armed t) ▸ ha
      · rw [← h1]; exact List.mem_singleton.mpr rfl

/-- C7 counterexample: the armed signal is low at instant 0 (the wait's final
check) and high from instant 1 on; the cycle still enters `download_log` at
instant 2, during the armed period, because no `armed()` read happens between
the catalog fetch and the initiation — refuting "whenever the armed signal
reads true, neither loop issues a download call". -/
theorem download_issued_while_armed :
    first_log_cycle_events (fun t => decide (1 ≤ t)) 0 1 "/logs/"
        ⟨7, "2024-05-02T00:00:00Z", 1000⟩ =
      some [(0, Ev.check false), (1, Ev.fetch),
            (2, Ev.download "/logs/2024-05-02T00:00:00Z.ulg")] ∧
      (fun t => decide (1 ≤ t)) 2 = true := by
  refine ⟨by decide, by decide⟩

/-- On the no-local-logs path every entry into `download_log` at instant `t`
is preceded by an `armed()` read that returned false — the armed wait's final
check, two instants earlier, before the catalog fetch. -/
theorem first_log_download_guarded (armed : Nat → Bool)
    (t0 fuel : Nat) (dir : String) (e : Entry) (tr : List (Nat × Ev))
    (t : Nat) (p : String)
    (htr : first_log_cycle_events armed t0 fuel dir e = some tr)
    (hdl : (t, Ev.download p) ∈ tr) :
    (t - 2, Ev.check false) ∈ tr ∧ armed (t - 2) = false ∧ t - 2 < t := by
  unfold first_log_cycle_events at htr
  cases hw : wait_events armed t0 fuel with
  | none => rw [hw] at htr; exact absurd htr (by simp)
  | some q =>
    obtain ⟨es, tEnd⟩ := q
    rw [hw] at htr
    injection htr with htr
    subst htr
    obtain ⟨n, hn1, hn2, hn3⟩ := wait_events_final_check armed fuel t0 es tEnd hw
    rw [List.mem_append] at hdl
    rcases hdl with hdl | hdl
    · obtain ⟨b, hb⟩ := wait_events_only_checks armed fuel t0 es tEnd hw _ hdl
      exact absurd hb (by simp)
    · simp only [List.mem_cons, List.not_mem_nil, or_false, Prod.mk.injEq] at hdl
      rcases hdl with ⟨ht, hev⟩ | ⟨ht, hev⟩
      · exact absurd hev (by simp)
      · have ht2 : t - 2 = n := by omega
        rw [ht2]
        exact ⟨List.mem_append_left _ hn3, hn2, by omega⟩

/-- Timed event trace of the loop of `download_all_logs` (LogLoader.cpp:148-170):
each entry visit starts with the `_telemetry->armed() || _should_exit` read at
LogLoader.cpp:153 (one instant; the event records the armed value read), which
aborts the pass when set; otherwise the two branches of LogLoader.cpp:159-168
may enter `download_log` one instant after the check, and the next entry's
check follows the (blocking) download. The filesystem is threaded through
exactly as in `download_all_logs`. -/
def all_logs_events (armed should_exit : Nat → Bool) (dir most_recent_log : String)
    (dl : Entry → Option Nat) :
    Nat → (String → Option Nat) → List Entry → List (Nat × Ev)
  | _, _, [] => []
  | t, fs, e :: rest =>
    if armed t || should_exit t then [(t, Ev.check (armed t))]
    else
      let p := logPath dir e
      match fs p with
      | some sz =>
        if sz < e.size_bytes then
          (t, Ev.check (armed t)) :: (t + 1, Ev.download p) ::
            all_logs_events armed should_exit dir most_recent_log dl (t + 2)
              (fsUpdate fs p (dl e)) rest
        else
          (t, Ev.check (armed t)) ::
            all_logs_events armed should_exit dir most_recent_log dl (t + 1) fs rest
      | none =>
        if string_lt most_recent_log e.date then
          (t, Ev.check (armed t)) :: (t + 1, Ev.download p) ::
            all_logs_events armed should_exit dir most_recent_log dl (t + 2)
              (fsUpdate fs p (dl e)) rest
        else
          (t, Ev.check (armed t)) ::
            all_logs_events armed should_exit dir most_recent_log dl (t + 1) fs rest

/-- Timed event trace of the per-file loop of `upload_logs_thread`
(LogLoader.cpp:268-287): each file starts with the
`_telemetry->armed() || _should_exit` read at LogLoader.cpp:271 (which skips
the file but continues the loop when set); otherwise `server_reachable()` runs
one instant later and, if it returns true, the upload call is entered one
instant after that. `reachable` gives the probe outcome at the probe's
instant. -/
def upload_pass_events (armed should_exit reachable : Nat → Bool) :
    Nat → List String → List (Nat × Ev)
  | _, [] => []
  | t, log_path :: rest =>
    if armed t || should_exit t then
      (t, Ev.check (armed t)) :: upload_pass_events armed should_exit reachable (t + 1) rest
    else if reachable (t + 1) then
      (t, Ev.check (armed t)) :: (t + 1, Ev.probe) :: (t + 2, Ev.upload log_path) ::
        upload_pass_events armed should_exit reachable (t + 3) rest
    else
      (t, Ev.check (armed t)) :: (t + 1, Ev.probe) ::
        upload_pass_events armed should_exit reachable (t + 2) rest

/-- In `download_all_logs` every entry into `download_log` at instant `t` is
preceded by its entry's armed check, one instant earlier, which read false. -/
theorem all_logs_download_guarded (armed should_exit : Nat → Bool)
    (dir most_recent_log : String) (dl : Entry → Option Nat) :
    ∀ (entries : List Entry) (t0 : Nat) (fs : String → Option Nat)
      (t : Nat) (p : String),
      (t, Ev.download p) ∈
          all_logs_events armed should_exit dir most_recent_log dl t0 fs entries →
      (t - 1, Ev.check false) ∈
          all_logs_events armed should_exit dir most_recent_log dl t0 fs entries ∧
        armed (t - 1) = false ∧ t - 1 < t := by
  intro entries
  induction entries with
  | nil =>
    intro t0 fs t p h
    exact absurd h (List.not_mem_nil _)
  | cons e rest ih =>
    intro t0 fs t p h
    unfold all_logs_events at h ⊢
    by_cases hab : (armed t0 || should_exit t0) = true
    · rw [if_pos hab] at h ⊢
      have h2 := List.mem_singleton.mp h
      exact absurd (congrArg Prod.snd h2) (by simp)
    · have hor : (armed t0 || should_exit t0) = false := Bool.not_eq_true _ ▸ hab
      have harm : armed t0 = false := by
        cases h1 : armed t0
        · rfl
        · rw [h1] at hor
          exact absurd hor (by simp)
      rw [if_neg hab] at h ⊢
      cases hfs : fs (logPath dir e) with
      | some sz =>
        by_cases hsz : sz < e.size_bytes
        · simp only [hfs, if_pos hsz] at h ⊢
          rcases List.mem_cons.mp h with h | h
          · exact absurd (congrArg Prod.snd h) (by simp)
          · rcases List.mem_cons.mp h with h | h
            · have ht : t = t0 + 1 := (Prod.ext_iff.mp h).1
              subst ht
              refine ⟨?_, ?_, ?_⟩
              · simp only [Nat.add_sub_cancel]
                rw [harm]
                exact List.mem_cons_self _ _
              · simpa using harm
              · omega
            · obtain ⟨m1, m2, m3⟩ := ih (t0 + 2) (fsUpdate fs (logPath dir e) (dl e)) t p h
              exact ⟨List.mem_cons_of_mem _ (List.mem_cons_of_mem _ m1), m2, m3⟩
        · simp only [hfs, if_neg hsz] at h ⊢
          rcases List.mem_cons.mp h with h | h
          · exact absurd (congrArg Prod.snd h) (by simp)
          · obtain ⟨m1, m2, m3⟩ := ih (t0 + 1) fs t p h
            exact ⟨List.mem_cons_of_mem _ m1, m2, m3⟩
      | none =>
        by_cases hdt : string_lt most_recent_log e.date = true
        · simp only [hfs, if_pos hdt] at h ⊢
          rcases List.mem_cons.mp h with h | h
          · exact absurd (congrArg Prod.snd h) (by simp)
          · rcases List.mem_cons.mp h with h | h
            · have ht : t = t0 + 1 := (Prod.ext_iff.mp h).1
              subst ht
              refine ⟨?_, ?_, ?_⟩
              · simp only [Nat.add_sub_cancel]
                rw [harm]
                exact List.mem_cons_self _ _
              · simpa using harm
              · omega
            · obtain ⟨m1, m2, m3⟩ := ih (t0 + 2) (fsUpdate fs (logPath dir e) (dl e)) t p h
              exact ⟨List.mem_cons_of_mem _ (List.mem_cons_of_mem _ m1), m2, m3⟩
        · simp only [hfs, if_neg hdt] at h ⊢
          rcases List.mem_cons.mp h with h | h
          · exact absurd (congrArg Prod.snd h) (by simp)
          · obtain ⟨m1, m2, m3⟩ := ih (t0 + 1) fs t p h
            exact ⟨List.mem_cons_of_mem _ m1, m2, m3⟩

/-- In the upload pass every entry into the upload call at instant `t` is
preceded by its file's armed check, two instants earlier (the reachability
probe intervening), which read false. -/
theorem upload_pass_guarded (armed should_exit reachable : Nat → Bool) :
    ∀ (files : List String) (t0 t : Nat) (p : String),
      (t, Ev.upload p) ∈ upload_pass_events armed should_exit reachable t0 files →
      (t - 2, Ev.check false) ∈ upload_pass_events armed should_exit reachable t0 files ∧
        armed (t - 2) = false ∧ t - 2 < t := by
  intro files
  induction files with
  | nil =>
    intro t0 t p h
    exact absurd h (List.not_mem_nil _)
  | cons q rest ih =>
    intro t0 t p h
    unfold upload_pass_events at h ⊢
    by_cases hab : (armed t0 || should_exit t0) = true
    · rw [if_pos hab] at h ⊢
      rcases List.mem_cons.mp h with h | h
      · exact absurd (congrArg Prod.snd h) (by simp)
      · obtain ⟨m1, m2, m3⟩ := ih (t0 + 1) t p h
        exact ⟨List.mem_cons_of_mem _ m1, m2, m3⟩
    · have hor : (armed t0 || should_exit t0) = false := Bool.not_eq_true _ ▸ hab
      have harm : armed t0 = false := by
        cases h1 : armed t0
        · rfl
        · rw [h1] at hor
          exact absurd hor (by simp)
      rw [if_neg hab] at h ⊢
      by_cases hre : reachable (t0 + 1) = true
      · rw [if_pos hre] at h ⊢
        rcases List.mem_cons.mp h with h | h
        · exact absurd (congrArg Prod.snd h) (by simp)
        · rcases List.mem_cons.mp h with h | h
          · exact absurd (congrArg Prod.snd h) (by simp)
          · rcases List.mem_cons.mp h with h | h
            · have ht : t = t0 + 2 := (Prod.ext_iff.mp h).1
              subst ht
              refine ⟨?_, ?_, ?_⟩
              · simp only [Nat.add_sub_cancel]
                rw [harm]
                exact List.mem_cons_self _ _
              · simpa using harm
              · omega
            · obtain ⟨m1, m2, m3⟩ := ih (t0 + 3) t p h
              exact ⟨List.mem_cons_of_mem _
                (List.mem_cons_of_mem _ (List.mem_cons_of_mem _ m1)), m2, m3⟩
      · rw [if_neg hre] at h ⊢
        rcases List.mem_cons.mp h with h | h
        · exact absurd (congrArg Prod.snd h) (by simp)
        · rcases List.mem_cons.mp h with h | h
          · exact absurd (congrArg Prod.snd h) (by simp)
          · obtain ⟨m1, m2, m3⟩ := ih (t0 + 2) t p h
            exact ⟨List.mem_cons_of_mem _ (List.mem_cons_of_mem _ m1), m2, m3⟩

/-- C7 (amended): every initiation of a download or an upload, on each of the
three initiating control paths, is preceded on that path by an `armed()` read
that returned false — on the no-local-logs cycle the armed wait's final check,
two instants before `download_log` (the catalog fetch intervening); in
`download_all_logs` the per-entry check at LogLoader.cpp:153, one instant
before `download_log`; in the upload pass the per-file check at
LogLoader.cpp:271, two instants before the upload call (the reachability probe
intervening). The signal is not re-read at the initiation instant itself, so
it may already be true again when the call is issued. -/
theorem download_preceded_by_disarmed_check :
    (∀ (armed : Nat → Bool) (t0 fuel : Nat) (dir : String) (e : Entry)
        (tr : List (Nat × Ev)) (t : Nat) (p : String),
        first_log_cycle_events armed t0 fuel dir e = some tr →
        (t, Ev.download p) ∈ tr →
        (t - 2, Ev.check false) ∈ tr ∧ armed (t - 2) = false ∧ t - 2 < t) ∧
    (∀ (armed should_exit : Nat → Bool) (dir most_recent_log : String)
        (dl : Entry → Option Nat) (entries : List Entry) (t0 : Nat)
        (fs : String → Option Nat) (t : Nat) (p : String),
        (t, Ev.download p) ∈
            all_logs_events armed should_exit dir most_recent_log dl t0 fs entries →
        (t - 1, Ev.check false) ∈
            all_logs_events armed should_exit dir most_recent_log dl t0 fs entries ∧
          armed (t - 1) = false ∧ t - 1 < t) ∧
    (∀ (armed should_exit reachable : Nat → Bool) (files : List String)
        (t0 t : Nat) (p : String),
        (t, Ev.upload p) ∈ upload_pass_events armed should_exit reachable t0 files →
        (t - 2, Ev.check false) ∈
            upload_pass_events armed should_exit reachable t0 files ∧
          armed (t - 2) = false ∧ t - 2 < t) :=
  ⟨fun armed t0 fuel dir e tr t p htr hdl =>
    first_log_download_guarded armed t0 fuel dir e tr t p htr hdl,
   fun armed should_exit dir most_recent_log dl entries t0 fs t p h =>
    all_logs_download_guarded armed should_exit dir most_recent_log dl entries t0 fs t p h,
   fun armed should_exit reachable files t0 t p h =>
    upload_pass_guarded armed should_exit reachable files t0 t p h⟩

/-- Witness for the amended C7: all three parts exercised at concrete inputs —
the counterexample's no-local-logs trace (download at instant 2), a one-entry
`download_all_logs` pass re-downloading a stale file (download at instant 1),
and a one-file upload pass with the archive reachable (upload at instant 2). -/
theorem download_preceded_by_disarmed_check_witness :
    ((0, Ev.check false) ∈ [(0, Ev.check false), (1, Ev.fetch),
        (2, Ev.download "/logs/2024-05-02T00:00:00Z.ulg")] ∧
      (fun t => decide (1 ≤ t)) 0 = false ∧ 0 < 2) ∧
    ((0, Ev.check false) ∈ all_logs_events (fun _ => false) (fun _ => false)
        "/logs/" "2024-05-01T00:00:00Z" (fun e => some e.size_bytes) 0 fsC2
        [⟨3, "2024-04-30T10:00:00Z", 1000⟩] ∧
      (fun _ => false) 0 = false ∧ 0 < 1) ∧
    ((0, Ev.check false) ∈ upload_pass_events (fun _ => false) (fun _ => false)
        (fun _ => true) 0 ["/logs/a.ulg"] ∧
      (fun _ => false) 0 = false ∧ 0 < 2) :=
  ⟨download_preceded_by_disarmed_check.1 (fun t => decide (1 ≤ t)) 0 1 "/logs/"
     ⟨7, "2024-05-02T00:00:00Z", 1000⟩
     [(0, Ev.check false), (1, Ev.fetch),
      (2, Ev.download "/logs/2024-05-02T00:00:00Z.ulg")]
     2 "/logs/2024-05-02T00:00:00Z.ulg" (by decide) (by decide),
   download_preceded_by_disarmed_check.2.1 (fun _ => false) (fun _ => false)
     "/logs/" "2024-05-01T00:00:00Z" (fun e => some e.size_bytes)
     [⟨3, "2024-04-30T10:00:00Z", 1000⟩] 0 fsC2 1
     "/logs/2024-04-30T10:00:00Z.ulg" (by decide),
   download_preceded_by_disarmed_check.2.2 (fun _ => false) (fun _ => false)
     (fun _ => true) ["/logs/a.ulg"] 0 2 "/logs/a.ulg" (by decide)⟩

end LogLoader
